import Mathlib

/-!
Shallow embedding of `src/create_graph.py` (TradeRouteSimulator).

The Python module builds a NetworkX graph from a 2D elevation array:
each cell `(i, j)` becomes node `i*cols + j` with attributes
`row`, `col`, `elevation`, `pos=(j, -i)`; edges connect 4-neighbors with
`weight = |elevation difference|` and `distance = 1`, inserted only when
`G.has_edge` is false.  `analyze_graph` computes elevation min/max and
connectivity; `save_graph_sample` takes the first `sample_size` nodes and
the induced subgraph.

The elevation array is modelled as dimensions `R C : Nat` together with a
value function `f : Nat → Nat → Int` (the code only reads entries inside
the effective grid).  A NetworkX `Graph` is modelled as its node list (in
insertion order, each node paired with its attribute record) and its edge
list (in insertion order, each edge carrying both endpoints and its
attributes).
-/

/-- Attributes stored on a node by `G.add_node(node_id, row=i, col=j,
elevation=e, pos=(j, -i))`. -/
structure NodeAttrs where
  row : Nat
  col : Nat
  elevation : Int
  pos : Int × Int
  deriving Repr, DecidableEq

/-- An edge record: the two endpoints passed to `G.add_edge` plus the
`weight` and `distance` attributes. -/
structure EdgeData where
  u : Nat
  v : Nat
  weight : Int
  distance : Nat
  deriving Repr, DecidableEq

/-- A NetworkX graph as observed by this module: node list in insertion
order with attributes, and edge list in insertion order. -/
structure Graph where
  nodes : List (Nat × NodeAttrs)
  edges : List EdgeData
  deriving Repr, DecidableEq

/-- Python `G.has_edge(u, v)` on an undirected NetworkX graph: some recorded edge
joins `u` and `v` in either orientation. -/
def hasEdge (es : List EdgeData) (u v : Nat) : Bool :=
  es.any (fun e => (e.u = u && e.v = v) || (e.u = v && e.v = u))

/-- The list `directions = [(-1, 0), (1, 0), (0, -1), (0, 1)]` — up, down, left,
right, in the order the Python loop iterates them. -/
def directions : List (Int × Int) := [(-1, 0), (1, 0), (0, -1), (0, 1)]

/-- The body of the inner direction loop at cell `(i, j)`: compute the
neighbor `(ni, nj) = (i + di, j + dj)`, and if it is in bounds
(`0 <= ni < rows and 0 <= nj < cols`, no wrap-around) and the edge is not
yet present, append it with `weight = |elevation difference|` and
`distance = 1`. -/
def edgeDirStep (rows cols : Nat) (f : Nat → Nat → Int) (i j : Nat)
    (es : List EdgeData) (d : Int × Int) : List EdgeData :=
  let ni : Int := (i : Int) + d.1
  let nj : Int := (j : Int) + d.2
  if 0 ≤ ni ∧ ni < (rows : Int) ∧ 0 ≤ nj ∧ nj < (cols : Int) then
    let niN := ni.toNat
    let njN := nj.toNat
    let neighbor := niN * cols + njN
    let current := i * cols + j
    if hasEdge es current neighbor then es
    else es ++ [⟨current, neighbor, |f i j - f niN njN|, 1⟩]
  else es

/-- The edge loop for one cell `(i, j)`: try all four directions in
order. -/
def edgeStep (rows cols : Nat) (f : Nat → Nat → Int) (i j : Nat)
    (es : List EdgeData) : List EdgeData :=
  directions.foldl (edgeDirStep rows cols f i j) es

/-- The cells `(i, j)` in the order the nested `for i ... for j ...` loops
visit them (row-major). -/
def cellList (rows cols : Nat) : List (Nat × Nat) :=
  (List.range rows).flatMap (fun i => (List.range cols).map (fun j => (i, j)))

/-- The node list built by the first nested loop: node `i*cols + j` with
attributes `row=i, col=j, elevation=array[i,j], pos=(j, -i)`. -/
def buildNodes (rows cols : Nat) (f : Nat → Nat → Int) :
    List (Nat × NodeAttrs) :=
  (cellList rows cols).map
    (fun ij => (ij.1 * cols + ij.2,
      ⟨ij.1, ij.2, f ij.1 ij.2, ((ij.2 : Int), -(ij.1 : Int))⟩))

/-- The edge list built by the second nested loop. -/
def buildEdges (rows cols : Nat) (f : Nat → Nat → Int) : List EdgeData :=
  (cellList rows cols).foldl
    (fun es ij => edgeStep rows cols f ij.1 ij.2 es) []

/-- Python `create_elevation_graph(elevation_array, max_size)`: determine the
effective `rows × cols` (truncated by `max_size` when supplied), add all
nodes, then add all 4-neighbor edges. -/
def create_elevation_graph (R C : Nat) (f : Nat → Nat → Int)
    (max_size : Option (Nat × Nat)) : Graph :=
  let rows := match max_size with | none => R | some m => min R m.1
  let cols := match max_size with | none => C | some m => min C m.2
  { nodes := buildNodes rows cols f
    edges := buildEdges rows cols f }

/-- The pair `min(elevations), max(elevations)` over all node elevations, as
computed inside `analyze_graph`; Python's `min`/`max` raise on an empty
list, modelled as `none`. -/
def elevation_range (G : Graph) : Option (Int × Int) :=
  match G.nodes.map (fun p => p.2.elevation) with
  | [] => none
  | e :: rest => some (rest.foldl min e, rest.foldl max e)

/-- One expansion step of breadth-first search over the graph: keep the
frontier set and add every node adjacent to it that is not yet present. -/
def expand (G : Graph) (S : List Nat) : List Nat :=
  S ++ (G.nodes.map Prod.fst).filter
    (fun v => !S.contains v && S.any (fun u => hasEdge G.edges u v))

/-- Iterated expansion: after `n` rounds, contains every node within
graph distance `n` of the start set. -/
def reachIter (G : Graph) (S : List Nat) : Nat → List Nat
  | 0 => S
  | n + 1 => reachIter G (expand G S) n

/-- Python `nx.is_connected(G)`: every node is reachable from the first node.
Iterating expansion `G.nodes.length` times saturates reachability.
(NetworkX raises on the null graph; modelled as `false`.) -/
def is_connected (G : Graph) : Bool :=
  match G.nodes with
  | [] => false
  | (r, _) :: _ =>
      G.nodes.all (fun p => (reachIter G [r] G.nodes.length).contains p.1)

/-- Python `save_graph_sample(G, sample_size)`: take the first `sample_size`
nodes of `list(G.nodes())` and form the induced subgraph (`G.subgraph`),
which keeps exactly the selected nodes with their attributes and the
edges whose both endpoints are selected, attributes unchanged. -/
def save_graph_sample (G : Graph) (sample_size : Nat) : Graph :=
  let sample_nodes := (G.nodes.map Prod.fst).take sample_size
  { nodes := G.nodes.filter (fun p => sample_nodes.contains p.1)
    edges := G.edges.filter
      (fun e => sample_nodes.contains e.u && sample_nodes.contains e.v) }

/-- Lookup `G.nodes[u]`: the attribute record of node `u`, when present
(NetworkX raises `KeyError` for a missing node, modelled as `none`). -/
def node_attrs (G : Graph) (u : Nat) : Option NodeAttrs :=
  (G.nodes.find? (fun p => p.1 == u)).map Prod.snd

/-- Two edge records join the same unordered pair of nodes. -/
def sameEnds (e₁ e₂ : EdgeData) : Prop :=
  (e₁.u = e₂.u ∧ e₁.v = e₂.v) ∨ (e₁.u = e₂.v ∧ e₁.v = e₂.u)

instance (e₁ e₂ : EdgeData) : Decidable (sameEnds e₁ e₂) := by
  unfold sameEnds; infer_instance

/-- The effective row count of a build: `min(rows, max_size[0])` when a
cap is supplied, `rows` otherwise. -/
def effRows (R : Nat) : Option (Nat × Nat) → Nat
  | none => R
  | some m => min R m.1

/-- The effective column count of a build. -/
def effCols (C : Nat) : Option (Nat × Nat) → Nat
  | none => C
  | some m => min C m.2

/-! ### Characterization of the build: closed forms for node and edge lists -/

/-- The edges the scan inserts while visiting cell `(i, j)`: its "down"
edge (to `(i+1, j)`) followed by its "right" edge (to `(i, j+1)`), each
when in bounds.  The "up" and "left" directions are always found already
present and skipped. -/
def cellEdges (rows cols : Nat) (f : Nat → Nat → Int) (i j : Nat) :
    List EdgeData :=
  (if i + 1 < rows then
    [⟨i * cols + j, (i + 1) * cols + j, |f i j - f (i + 1) j|, 1⟩] else []) ++
  (if j + 1 < cols then
    [⟨i * cols + j, i * cols + (j + 1), |f i j - f i (j + 1)|, 1⟩] else [])

/-- The edge list after the scan has fully processed the first `k` cells
in row-major order. -/
def edgesUpTo (rows cols : Nat) (f : Nat → Nat → Int) (k : Nat) :
    List EdgeData :=
  (List.range k).flatMap (fun a => cellEdges rows cols f (a / cols) (a % cols))

lemma encode_div (i j cols : Nat) (hj : j < cols) :
    (i * cols + j) / cols = i := by
  rw [Nat.mul_comm, Nat.mul_add_div (Nat.lt_of_le_of_lt (Nat.zero_le j) hj),
    Nat.div_eq_of_lt hj, Nat.add_zero]

lemma encode_mod (i j cols : Nat) (hj : j < cols) :
    (i * cols + j) % cols = j := by
  rw [Nat.mul_comm, Nat.mul_add_mod, Nat.mod_eq_of_lt hj]

lemma decode_encode (a cols : Nat) : a / cols * cols + a % cols = a := by
  rw [Nat.mul_comm]; exact Nat.div_add_mod a cols

lemma cellList_eq (rows cols : Nat) :
    cellList rows cols =
      (List.range (rows * cols)).map (fun a => (a / cols, a % cols)) := by
  induction rows with
  | zero => simp [cellList]
  | succ r ih =>
    have h2 : (List.range cols).map (fun j => (r, j)) =
        ((List.range cols).map (fun x => r * cols + x)).map
          (fun a => (a / cols, a % cols)) := by
      rw [List.map_map]
      apply List.map_congr_left
      intro j hj
      rw [List.mem_range] at hj
      simp only [Function.comp_apply]
      rw [encode_div r j cols hj, encode_mod r j cols hj]
    rw [cellList, List.range_succ, List.flatMap_append, ← cellList,
      Nat.succ_mul, List.range_add, List.map_append, ← ih]
    simp only [List.flatMap_cons, List.flatMap_nil, List.append_nil]
    rw [h2]

lemma buildNodes_eq (rows cols : Nat) (f : Nat → Nat → Int) :
    buildNodes rows cols f =
      (List.range (rows * cols)).map (fun a =>
        (a, ⟨a / cols, a % cols, f (a / cols) (a % cols),
          ((↑(a % cols) : Int), -(↑(a / cols) : Int))⟩)) := by
  rw [buildNodes, cellList_eq, List.map_map]
  apply List.map_congr_left
  intro a _
  simp only [Function.comp_apply]
  rw [decode_encode]

lemma hasEdge_append (es₁ es₂ : List EdgeData) (u v : Nat) :
    hasEdge (es₁ ++ es₂) u v = (hasEdge es₁ u v || hasEdge es₂ u v) := by
  rw [hasEdge, hasEdge, hasEdge, List.any_append]

lemma mem_cellEdges {rows cols : Nat} {f : Nat → Nat → Int} {i j : Nat}
    {e : EdgeData} (he : e ∈ cellEdges rows cols f i j) :
    (i + 1 < rows ∧
      e = ⟨i * cols + j, (i + 1) * cols + j, |f i j - f (i + 1) j|, 1⟩) ∨
    (j + 1 < cols ∧
      e = ⟨i * cols + j, i * cols + (j + 1), |f i j - f i (j + 1)|, 1⟩) := by
  rw [cellEdges, List.mem_append] at he
  rcases he with he | he
  · left
    by_cases h : i + 1 < rows
    · rw [if_pos h, List.mem_singleton] at he
      exact ⟨h, he⟩
    · rw [if_neg h] at he
      exact absurd he (List.not_mem_nil e)
  · right
    by_cases h : j + 1 < cols
    · rw [if_pos h, List.mem_singleton] at he
      exact ⟨h, he⟩
    · rw [if_neg h] at he
      exact absurd he (List.not_mem_nil e)

lemma edgesUpTo_shape {rows cols k : Nat} {f : Nat → Nat → Int}
    (hk : k ≤ rows * cols) :
    ∀ e ∈ edgesUpTo rows cols f k, e.u < k ∧ e.u < e.v := by
  intro e he
  rw [edgesUpTo, List.mem_flatMap] at he
  obtain ⟨a, ha, he⟩ := he
  rw [List.mem_range] at ha
  have hcols : 0 < cols := by
    rcases Nat.eq_zero_or_pos cols with h | h
    · subst h; rw [Nat.mul_zero] at hk; omega
    · exact h
  have h1 := decode_encode a cols
  rcases mem_cellEdges he with ⟨hc, rfl⟩ | ⟨hc, rfl⟩
  · refine ⟨?_, ?_⟩
    · show a / cols * cols + a % cols < k
      rw [h1]; exact ha
    · show a / cols * cols + a % cols < (a / cols + 1) * cols + a % cols
      exact Nat.add_lt_add_right
        (mul_lt_mul_of_pos_right (Nat.lt_succ_self _) hcols) _
  · refine ⟨?_, ?_⟩
    · show a / cols * cols + a % cols < k
      rw [h1]; exact ha
    · show a / cols * cols + a % cols < a / cols * cols + (a % cols + 1)
      exact Nat.add_lt_add_left (Nat.lt_succ_self _) _

lemma hasEdge_edgesUpTo_false {rows cols k u v : Nat} {f : Nat → Nat → Int}
    (hk : k ≤ rows * cols) (hu : k ≤ u) (hv : k ≤ v) :
    hasEdge (edgesUpTo rows cols f k) u v = false := by
  rw [hasEdge, List.any_eq_false]
  intro e he
  have hs := edgesUpTo_shape hk e he
  simp only [Bool.or_eq_true, Bool.and_eq_true, decide_eq_true_eq, not_or,
    not_and]
  exact ⟨fun h1 _ => by omega, fun h1 _ => by omega⟩

lemma hasEdge_up {rows cols : Nat} {f : Nat → Nat → Int} {i j : Nat}
    (hi0 : 0 < i) (hi : i < rows) (hj : j < cols) :
    hasEdge (edgesUpTo rows cols f (i * cols + j)) (i * cols + j)
      ((i - 1) * cols + j) = true := by
  have hpred : i - 1 + 1 = i := by omega
  have hcols : 0 < cols := by omega
  rw [hasEdge, List.any_eq_true]
  refine ⟨⟨(i - 1) * cols + j, i * cols + j, |f (i - 1) j - f i j|, 1⟩, ?_, ?_⟩
  · rw [edgesUpTo, List.mem_flatMap]
    refine ⟨(i - 1) * cols + j, ?_, ?_⟩
    · rw [List.mem_range]
      exact Nat.add_lt_add_right
        (mul_lt_mul_of_pos_right (by omega) hcols) j
    · rw [encode_div _ _ _ hj, encode_mod _ _ _ hj, cellEdges, List.mem_append]
      left
      rw [if_pos (by omega), List.mem_singleton, hpred]
  · simp

lemma hasEdge_left {rows cols : Nat} {f : Nat → Nat → Int} {i j : Nat}
    (hj0 : 0 < j) (_hi : i < rows) (hj : j < cols) :
    hasEdge (edgesUpTo rows cols f (i * cols + j)) (i * cols + j)
      (i * cols + (j - 1)) = true := by
  have hpred : j - 1 + 1 = j := by omega
  rw [hasEdge, List.any_eq_true]
  refine ⟨⟨i * cols + (j - 1), i * cols + j, |f i (j - 1) - f i j|, 1⟩, ?_, ?_⟩
  · rw [edgesUpTo, List.mem_flatMap]
    refine ⟨i * cols + (j - 1), ?_, ?_⟩
    · rw [List.mem_range]
      exact Nat.add_lt_add_left (by omega) _
    · rw [encode_div _ _ _ (by omega), encode_mod _ _ _ (by omega), cellEdges,
        List.mem_append]
      right
      rw [if_pos (by omega), List.mem_singleton, hpred]
  · simp

lemma edgeDirStep_apply (rows cols : Nat) (f : Nat → Nat → Int) (i j : Nat)
    (es : List EdgeData) (d1 d2 : Int) :
    edgeDirStep rows cols f i j es (d1, d2) =
      if 0 ≤ (i : Int) + d1 ∧ (i : Int) + d1 < (rows : Int) ∧
          0 ≤ (j : Int) + d2 ∧ (j : Int) + d2 < (cols : Int) then
        (if hasEdge es (i * cols + j)
            (((i : Int) + d1).toNat * cols + ((j : Int) + d2).toNat) then es
         else es ++ [⟨i * cols + j,
           ((i : Int) + d1).toNat * cols + ((j : Int) + d2).toNat,
           |f i j - f ((i : Int) + d1).toNat ((j : Int) + d2).toNat|, 1⟩])
      else es := rfl

lemma encode_lt {i j rows cols : Nat} (hi : i < rows) (hj : j < cols) :
    i * cols + j < rows * cols := by
  calc i * cols + j < i * cols + cols := by omega
  _ = (i + 1) * cols := by rw [Nat.succ_mul]
  _ ≤ rows * cols := Nat.mul_le_mul_right cols hi

lemma edgeDirStep_up {rows cols : Nat} {f : Nat → Nat → Int} {i j : Nat}
    (hi : i < rows) (hj : j < cols) :
    edgeDirStep rows cols f i j (edgesUpTo rows cols f (i * cols + j))
      (-1, 0) = edgesUpTo rows cols f (i * cols + j) := by
  rw [edgeDirStep_apply]
  by_cases hi0 : 0 < i
  · rw [if_pos (by omega)]
    have e1 : ((i : Int) + -1).toNat = i - 1 := by omega
    have e2 : ((j : Int) + 0).toNat = j := by omega
    rw [e1, e2, hasEdge_up hi0 hi hj, if_pos rfl]
  · rw [if_neg (by omega)]

lemma edgeDirStep_down {rows cols : Nat} {f : Nat → Nat → Int} {i j : Nat}
    (hi : i < rows) (hj : j < cols) :
    edgeDirStep rows cols f i j (edgesUpTo rows cols f (i * cols + j))
      (1, 0) =
      edgesUpTo rows cols f (i * cols + j) ++
        (if i + 1 < rows then
          [⟨i * cols + j, (i + 1) * cols + j, |f i j - f (i + 1) j|, 1⟩]
         else []) := by
  rw [edgeDirStep_apply]
  by_cases hdown : i + 1 < rows
  · rw [if_pos hdown, if_pos (by omega)]
    have e1 : ((i : Int) + 1).toNat = i + 1 := by omega
    have e2 : ((j : Int) + 0).toNat = j := by omega
    rw [e1, e2,
      hasEdge_edgesUpTo_false (Nat.le_of_lt (encode_lt hi hj)) (Nat.le_refl _)
        (by rw [Nat.succ_mul]; omega)]
    rw [if_neg (by simp)]
  · rw [if_neg hdown, if_neg (by omega), List.append_nil]

lemma edgeDirStep_left {rows cols : Nat} {f : Nat → Nat → Int} {i j : Nat}
    (hi : i < rows) (hj : j < cols) (l : List EdgeData) :
    edgeDirStep rows cols f i j (edgesUpTo rows cols f (i * cols + j) ++ l)
      (0, -1) = edgesUpTo rows cols f (i * cols + j) ++ l := by
  rw [edgeDirStep_apply]
  by_cases hj0 : 0 < j
  · rw [if_pos (by omega)]
    have e1 : ((i : Int) + 0).toNat = i := by omega
    have e2 : ((j : Int) + -1).toNat = j - 1 := by omega
    rw [e1, e2, hasEdge_append, hasEdge_left hj0 hi hj, Bool.true_or,
      if_pos rfl]
  · rw [if_neg (by omega)]

lemma edgeDirStep_right {rows cols : Nat} {f : Nat → Nat → Int} {i j : Nat}
    (hi : i < rows) (hj : j < cols) :
    edgeDirStep rows cols f i j
      (edgesUpTo rows cols f (i * cols + j) ++
        (if i + 1 < rows then
          [⟨i * cols + j, (i + 1) * cols + j, |f i j - f (i + 1) j|, 1⟩]
         else [])) (0, 1) =
      edgesUpTo rows cols f (i * cols + j) ++ cellEdges rows cols f i j := by
  rw [edgeDirStep_apply, cellEdges]
  by_cases hright : j + 1 < cols
  · rw [if_pos (by omega)]
    have e1 : ((i : Int) + 0).toNat = i := by omega
    have e2 : ((j : Int) + 1).toNat = j + 1 := by omega
    rw [e1, e2, hasEdge_append,
      hasEdge_edgesUpTo_false (Nat.le_of_lt (encode_lt hi hj)) (Nat.le_refl _)
        (by omega)]
    have hsnd : hasEdge
        (if i + 1 < rows then
          [⟨i * cols + j, (i + 1) * cols + j, |f i j - f (i + 1) j|, 1⟩]
         else ([] : List EdgeData)) (i * cols + j) (i * cols + (j + 1)) =
        false := by
      by_cases hdown : i + 1 < rows
      · rw [if_pos hdown, hasEdge, List.any_eq_false]
        intro e he
        rw [List.mem_singleton] at he
        subst he
        simp only [Bool.or_eq_true, Bool.and_eq_true, decide_eq_true_eq,
          not_or, not_and]
        constructor
        · intro _
          rw [Nat.succ_mul]
          omega
        · intro h
          omega
      · rw [if_neg hdown]
        rfl
    rw [hsnd, Bool.false_or, if_neg (by simp), List.append_assoc, if_pos hright]
  · rw [if_neg (by omega), if_neg hright, List.append_nil]

lemma edgeStep_spec {rows cols : Nat} {f : Nat → Nat → Int} {i j : Nat}
    (hi : i < rows) (hj : j < cols) :
    edgeStep rows cols f i j (edgesUpTo rows cols f (i * cols + j)) =
      edgesUpTo rows cols f (i * cols + j) ++ cellEdges rows cols f i j := by
  rw [edgeStep, directions]
  simp only [List.foldl_cons, List.foldl_nil]
  rw [edgeDirStep_up hi hj, edgeDirStep_down hi hj,
    edgeDirStep_left hi hj, edgeDirStep_right hi hj]

lemma edgesUpTo_succ (rows cols : Nat) (f : Nat → Nat → Int) (k : Nat) :
    edgesUpTo rows cols f (k + 1) =
      edgesUpTo rows cols f k ++ cellEdges rows cols f (k / cols) (k % cols) := by
  rw [edgesUpTo, edgesUpTo, List.range_succ, List.flatMap_append]
  simp only [List.flatMap_cons, List.flatMap_nil, List.append_nil]

lemma buildEdges_eq (rows cols : Nat) (f : Nat → Nat → Int) :
    buildEdges rows cols f = edgesUpTo rows cols f (rows * cols) := by
  rw [buildEdges, cellList_eq, List.foldl_map]
  have main : ∀ k, k ≤ rows * cols →
      (List.range k).foldl
        (fun es a => edgeStep rows cols f (a / cols) (a % cols) es) [] =
      edgesUpTo rows cols f k := by
    intro k
    induction k with
    | zero => intro _; rfl
    | succ n ih =>
      intro hn
      rw [List.range_succ, List.foldl_append, ih (by omega)]
      simp only [List.foldl_cons, List.foldl_nil]
      have hcols : 0 < cols := by
        rcases Nat.eq_zero_or_pos cols with h | h
        · subst h; rw [Nat.mul_zero] at hn; omega
        · exact h
      have hi : n / cols < rows := by
        rw [Nat.div_lt_iff_lt_mul hcols]
        omega
      have hj : n % cols < cols := Nat.mod_lt n hcols
      have hn2 : n / cols * cols + n % cols = n := decode_encode n cols
      rw [edgesUpTo_succ]
      calc edgeStep rows cols f (n / cols) (n % cols)
            (edgesUpTo rows cols f n) =
          edgeStep rows cols f (n / cols) (n % cols)
            (edgesUpTo rows cols f (n / cols * cols + n % cols)) := by
            rw [hn2]
      _ = edgesUpTo rows cols f (n / cols * cols + n % cols) ++
            cellEdges rows cols f (n / cols) (n % cols) := edgeStep_spec hi hj
      _ = edgesUpTo rows cols f n ++
            cellEdges rows cols f (n / cols) (n % cols) := by rw [hn2]
  exact main (rows * cols) (Nat.le_refl _)

lemma mem_cellList {rows cols i j : Nat} :
    (i, j) ∈ cellList rows cols ↔ i < rows ∧ j < cols := by
  rw [cellList, List.mem_flatMap]
  constructor
  · rintro ⟨x, hx, hmem⟩
    rw [List.mem_range] at hx
    rw [List.mem_map] at hmem
    obtain ⟨y, hy, hxy⟩ := hmem
    rw [List.mem_range] at hy
    obtain ⟨rfl, rfl⟩ := Prod.mk.injEq .. ▸ hxy
    exact ⟨hx, hy⟩
  · rintro ⟨hi, hj⟩
    exact ⟨i, List.mem_range.mpr hi,
      List.mem_map.mpr ⟨j, List.mem_range.mpr hj, rfl⟩⟩

lemma buildEdges_eq_cells (rows cols : Nat) (f : Nat → Nat → Int) :
    buildEdges rows cols f =
      (cellList rows cols).flatMap
        (fun ij => cellEdges rows cols f ij.1 ij.2) := by
  rw [buildEdges_eq, cellList_eq, List.flatMap_map, edgesUpTo]

lemma mem_buildEdges_iff {rows cols : Nat} {f : Nat → Nat → Int}
    {e : EdgeData} :
    e ∈ buildEdges rows cols f ↔
      ∃ i, i < rows ∧ ∃ j, j < cols ∧ e ∈ cellEdges rows cols f i j := by
  rw [buildEdges_eq_cells, List.mem_flatMap]
  constructor
  · rintro ⟨⟨i, j⟩, hij, he⟩
    rw [mem_cellList] at hij
    exact ⟨i, hij.1, j, hij.2, he⟩
  · rintro ⟨i, hi, j, hj, he⟩
    exact ⟨(i, j), mem_cellList.mpr ⟨hi, hj⟩, he⟩

/-! ### Counting lemmas -/

lemma sum_map_add {α : Type} (l : List α) (f g : α → Nat) :
    (l.map (fun x => f x + g x)).sum = (l.map f).sum + (l.map g).sum := by
  induction l with
  | nil => rfl
  | cons x xs ih => simp only [List.map_cons, List.sum_cons, ih]; omega

lemma sum_map_const {α : Type} (l : List α) (c : Nat) :
    (l.map (fun _ => c)).sum = l.length * c := by
  induction l with
  | nil => simp
  | cons x xs ih =>
    simp only [List.map_cons, List.sum_cons, ih, List.length_cons]
    ring

lemma sum_flatMap {α : Type} (l : List α) (f : α → List Nat) :
    (l.flatMap f).sum = (l.map (fun a => (f a).sum)).sum := by
  induction l with
  | nil => rfl
  | cons x xs ih => simp only [List.flatMap_cons, List.sum_append, ih,
      List.map_cons, List.sum_cons]

lemma sum_indicator (n m : Nat) :
    ((List.range n).map (fun j => if j + 1 < n then m else 0)).sum =
      (n - 1) * m := by
  cases n with
  | zero => simp
  | succ k =>
    rw [List.range_succ, List.map_append, List.sum_append]
    have h1 : (List.range k).map (fun j => if j + 1 < k + 1 then m else 0) =
        (List.range k).map (fun _ => m) := by
      apply List.map_congr_left
      intro j hj
      rw [List.mem_range] at hj
      rw [if_pos (by omega)]
    rw [h1, sum_map_const, List.length_range]
    simp only [List.map_cons, List.map_nil, List.sum_cons, List.sum_nil]
    rw [if_neg (by omega)]
    simp

lemma cellEdges_length (rows cols : Nat) (f : Nat → Nat → Int) (i j : Nat) :
    (cellEdges rows cols f i j).length =
      (if i + 1 < rows then 1 else 0) + (if j + 1 < cols then 1 else 0) := by
  rw [cellEdges, List.length_append]
  split_ifs <;> rfl

lemma buildEdges_length (rows cols : Nat) (f : Nat → Nat → Int) :
    (buildEdges rows cols f).length =
      rows * (cols - 1) + (rows - 1) * cols := by
  rw [buildEdges_eq_cells, List.length_flatMap, cellList]
  rw [List.map_flatMap, sum_flatMap]
  have h2 : ((List.range rows).map (fun i =>
      (((List.range cols).map (fun j => (i, j))).map
        (List.length ∘ fun ij : Nat × Nat =>
          cellEdges rows cols f ij.1 ij.2)).sum)) =
      (List.range rows).map (fun i =>
        (cols - 1) + cols * (if i + 1 < rows then 1 else 0)) := by
    apply List.map_congr_left
    intro i _
    rw [List.map_map]
    have h1 : ((List.range cols).map
        ((List.length ∘ fun ij : Nat × Nat =>
          cellEdges rows cols f ij.1 ij.2) ∘ (fun j => (i, j)))) =
        (List.range cols).map (fun j =>
          (if j + 1 < cols then 1 else 0) + (if i + 1 < rows then 1 else 0)) := by
      apply List.map_congr_left
      intro j _
      simp only [Function.comp_apply]
      rw [cellEdges_length]
      omega
    rw [h1, sum_map_add, sum_indicator, sum_map_const, List.length_range]
    omega
  rw [h2, sum_map_add, sum_map_const, List.length_range]
  have h3 : ((List.range rows).map
      (fun i => cols * (if i + 1 < rows then 1 else 0))).sum =
      (rows - 1) * cols := by
    have h4 : ((List.range rows).map
        (fun i => cols * (if i + 1 < rows then 1 else 0))) =
        (List.range rows).map (fun i => if i + 1 < rows then cols else 0) := by
      apply List.map_congr_left
      intro i _
      split_ifs <;> omega
    rw [h4, sum_indicator]
  rw [h3]

lemma buildNodes_length (rows cols : Nat) (f : Nat → Nat → Int) :
    (buildNodes rows cols f).length = rows * cols := by
  rw [buildNodes_eq, List.length_map, List.length_range]

lemma buildNodes_map_fst (rows cols : Nat) (f : Nat → Nat → Int) :
    (buildNodes rows cols f).map Prod.fst = List.range (rows * cols) := by
  rw [buildNodes_eq, List.map_map]
  exact List.map_id _ ▸ rfl

lemma find?_range_map {β : Type} (g : Nat → β) (N a : Nat) (ha : a < N) :
    ((List.range N).map (fun x => (x, g x))).find? (fun p => p.1 == a) =
      some (a, g a) := by
  induction N with
  | zero => omega
  | succ n ih =>
    rw [List.range_succ, List.map_append, List.find?_append]
    by_cases h : a < n
    · rw [ih h]
      rfl
    · have ha2 : a = n := by omega
      subst ha2
      have hnone : ((List.range a).map (fun x => (x, g x))).find?
          (fun p => p.1 == a) = none := by
        rw [List.find?_eq_none]
        intro p hp
        rw [List.mem_map] at hp
        obtain ⟨x, hx, rfl⟩ := hp
        rw [List.mem_range] at hx
        simp only [beq_iff_eq]
        omega
      rw [hnone]
      simp [List.find?]

lemma node_attrs_build {rows cols : Nat} {f : Nat → Nat → Int} {a : Nat}
    (ha : a < rows * cols) :
    node_attrs ⟨buildNodes rows cols f, buildEdges rows cols f⟩ a =
      some ⟨a / cols, a % cols, f (a / cols) (a % cols),
        ((↑(a % cols) : Int), -(↑(a / cols) : Int))⟩ := by
  rw [node_attrs, buildNodes_eq]
  rw [find?_range_map (fun x => (⟨x / cols, x % cols, f (x / cols) (x % cols),
    ((↑(x % cols) : Int), -(↑(x / cols) : Int))⟩ : NodeAttrs)) _ a ha]
  rfl

lemma create_none_eq (R C : Nat) (f : Nat → Nat → Int) :
    create_elevation_graph R C f none =
      { nodes := buildNodes R C f, edges := buildEdges R C f } := rfl

lemma create_eq_eff (R C : Nat) (f : Nat → Nat → Int)
    (cap : Option (Nat × Nat)) :
    create_elevation_graph R C f cap =
      { nodes := buildNodes (effRows R cap) (effCols C cap) f,
        edges := buildEdges (effRows R cap) (effCols C cap) f } := by
  cases cap <;> rfl

/-! ### Claims -/

/-- C1: For every 2D numeric array with `R` rows and `C` columns where
`R*C ≥ 2` (no size cap), the graph returned by `create_elevation_graph`
has exactly `R*(C-1) + C*(R-1)` edges: each 4-adjacency is inserted
exactly once even though the scan visits it from both endpoints. -/
theorem C1_edge_count (R C : Nat) (f : Nat → Nat → Int) (h : 2 ≤ R * C) :
    (create_elevation_graph R C f none).edges.length =
      R * (C - 1) + C * (R - 1) := by
  rw [create_none_eq]
  show (buildEdges R C f).length = _
  rw [buildEdges_length]
  have := Nat.mul_comm (R - 1) C
  omega

/-- Witness for C1 at a concrete 2×3 grid: 2*2 + 3*1 = 7 edges. -/
theorem C1_edge_count_witness :
    (create_elevation_graph 2 3 (fun i j => (i : Int) * 10 + j)
      none).edges.length = 2 * (3 - 1) + 3 * (2 - 1) :=
  C1_edge_count 2 3 (fun i j => (i : Int) * 10 + j) (by decide)

/-- C2: For every 2D numeric array with `R ≥ 1` rows and `C ≥ 1`
columns (no size cap), the graph has exactly `R*C` nodes, whose
identifiers are exactly `0..R*C-1` in build order with
`node id = row*C + col` (a bijection between in-bounds `(row, col)` pairs
and ids), and the node for `(row, col)` carries `elevation = array[row, col]`. -/
theorem C2_node_ids (R C : Nat) (f : Nat → Nat → Int)
    (hR : 1 ≤ R) (hC : 1 ≤ C) :
    (create_elevation_graph R C f none).nodes.length = R * C ∧
    (create_elevation_graph R C f none).nodes.map Prod.fst =
      List.range (R * C) ∧
    ∀ i < R, ∀ j < C,
      (i * C + j,
        (⟨i, j, f i j, ((j : Int), -(i : Int))⟩ : NodeAttrs)) ∈
        (create_elevation_graph R C f none).nodes := by
  rw [create_none_eq]
  refine ⟨buildNodes_length R C f, ?_, ?_⟩
  · exact buildNodes_map_fst R C f
  · intro i hi j hj
    show _ ∈ buildNodes R C f
    rw [buildNodes, List.mem_map]
    exact ⟨(i, j), mem_cellList.mpr ⟨hi, hj⟩, rfl⟩

/-- Witness for C2 on a concrete 2×2 grid, checking the node-id list and
the attribute of cell (1, 0). -/
theorem C2_node_ids_witness :
    (create_elevation_graph 2 2 (fun i j => (i : Int) * 10 + j)
        none).nodes.map Prod.fst = List.range (2 * 2) ∧
    (1 * 2 + 0, (⟨1, 0, 10, ((0 : Int), (-1 : Int))⟩ : NodeAttrs)) ∈
      (create_elevation_graph 2 2 (fun i j => (i : Int) * 10 + j)
        none).nodes := by
  have h := C2_node_ids 2 2 (fun i j => (i : Int) * 10 + j)
    (by decide) (by decide)
  exact ⟨h.2.1, h.2.2 1 (by decide) 0 (by decide)⟩

/-- C3: Every edge of a built graph has `weight` equal to the
absolute difference of its two endpoints' `elevation` attributes (hence
`weight ≥ 0`), and `distance = 1`. -/
theorem C3_edge_attrs (R C : Nat) (f : Nat → Nat → Int) :
    ∀ e ∈ (create_elevation_graph R C f none).edges,
      ∃ au av : NodeAttrs,
        node_attrs (create_elevation_graph R C f none) e.u = some au ∧
        node_attrs (create_elevation_graph R C f none) e.v = some av ∧
        e.weight = |au.elevation - av.elevation| ∧
        0 ≤ e.weight ∧ e.distance = 1 := by
  intro e he
  rw [create_none_eq] at he ⊢
  replace he : e ∈ buildEdges R C f := he
  rw [mem_buildEdges_iff] at he
  obtain ⟨i, hi, j, hj, he⟩ := he
  rcases mem_cellEdges he with ⟨hc, rfl⟩ | ⟨hc, rfl⟩
  · refine ⟨_, _, node_attrs_build (encode_lt hi hj),
      node_attrs_build (encode_lt hc hj), ?_, ?_, rfl⟩
    · show |f i j - f (i + 1) j| =
        |f ((i * C + j) / C) ((i * C + j) % C) -
          f (((i + 1) * C + j) / C) (((i + 1) * C + j) % C)|
      rw [encode_div _ _ _ hj, encode_mod _ _ _ hj,
        encode_div _ _ _ hj, encode_mod _ _ _ hj]
    · exact abs_nonneg _
  · refine ⟨_, _, node_attrs_build (encode_lt hi hj),
      node_attrs_build (encode_lt hi hc), ?_, ?_, rfl⟩
    · show |f i j - f i (j + 1)| =
        |f ((i * C + j) / C) ((i * C + j) % C) -
          f ((i * C + (j + 1)) / C) ((i * C + (j + 1)) % C)|
      rw [encode_div _ _ _ hj, encode_mod _ _ _ hj,
        encode_div _ _ _ hc, encode_mod _ _ _ hc]
    · exact abs_nonneg _

/-- Witness for C3 at a concrete edge of a 1×2 grid. -/
theorem C3_edge_attrs_witness :
    ∃ au av : NodeAttrs,
      node_attrs (create_elevation_graph 1 2 (fun i j => (i : Int) * 10 + j)
        none) 0 = some au ∧
      node_attrs (create_elevation_graph 1 2 (fun i j => (i : Int) * 10 + j)
        none) 1 = some av ∧
      (1 : Int) = |au.elevation - av.elevation| ∧
      (0 : Int) ≤ 1 ∧ (1 : Nat) = 1 := by
  have h := C3_edge_attrs 1 2 (fun i j => (i : Int) * 10 + j)
    ⟨0, 1, 1, 1⟩ (by decide)
  exact h

lemma cellList_nil {rows cols : Nat} (h : rows = 0 ∨ cols = 0) :
    cellList rows cols = [] := by
  rcases h with rfl | rfl
  · rfl
  · rw [cellList]
    induction rows with
    | zero => rfl
    | succ r ih => rw [List.range_succ, List.flatMap_append, ih]; rfl

/-- C4 counterexample: The claim says a build whose effective grid
has zero rows or columns fails with an `EmptyInput` error and produces no
caller-visible graph.  The code has no such error path: capping a 5×5
array to 0 rows returns an ordinary (empty) graph to the caller. -/
theorem C4_counterexample :
    create_elevation_graph 5 5 (fun _ _ => (37 : Int)) (some (0, 5)) =
      ⟨[], []⟩ := by
  rfl

/-- C4 amended: If the effective grid after applying the optional
size cap has zero rows or zero columns, `create_elevation_graph` raises
no error: it succeeds and returns the empty graph (zero nodes, zero
edges) to the caller. -/
theorem C4_empty_input (R C : Nat) (f : Nat → Nat → Int)
    (cap : Option (Nat × Nat))
    (h : effRows R cap = 0 ∨ effCols C cap = 0) :
    create_elevation_graph R C f cap = ⟨[], []⟩ := by
  rw [create_eq_eff]
  have hnil : cellList (effRows R cap) (effCols C cap) = [] := cellList_nil h
  rw [Graph.mk.injEq, buildNodes, buildEdges, hnil]
  exact ⟨rfl, rfl⟩

/-- Witness for the amended C4: a 0×5 array builds the empty graph. -/
theorem C4_empty_input_witness :
    create_elevation_graph 0 5 (fun _ _ => (37 : Int)) none = ⟨[], []⟩ :=
  C4_empty_input 0 5 (fun _ _ => (37 : Int)) none (Or.inl rfl)

/-! ### C8: size cap -/

lemma flatMap_congr_left {α β : Type} (l : List α) (f g : α → List β)
    (h : ∀ a ∈ l, f a = g a) : l.flatMap f = l.flatMap g := by
  induction l with
  | nil => rfl
  | cons x xs ih =>
    rw [List.flatMap_cons, List.flatMap_cons, h x (by simp),
      ih (fun a ha => h a (by simp [ha]))]

lemma buildNodes_congr {rows cols : Nat} {f g : Nat → Nat → Int}
    (h : ∀ i < rows, ∀ j < cols, f i j = g i j) :
    buildNodes rows cols f = buildNodes rows cols g := by
  rw [buildNodes, buildNodes]
  apply List.map_congr_left
  rintro ⟨i, j⟩ hij
  rw [mem_cellList] at hij
  rw [h i hij.1 j hij.2]

lemma cellEdges_congr {rows cols i j : Nat} {f g : Nat → Nat → Int}
    (h : ∀ i < rows, ∀ j < cols, f i j = g i j)
    (hi : i < rows) (hj : j < cols) :
    cellEdges rows cols f i j = cellEdges rows cols g i j := by
  rw [cellEdges, cellEdges]
  congr 1
  · split_ifs with hd
    · rw [h i hi j hj, h (i + 1) hd j hj]
    · rfl
  · split_ifs with hr
    · rw [h i hi j hj, h i hi (j + 1) hr]
    · rfl

lemma buildEdges_congr {rows cols : Nat} {f g : Nat → Nat → Int}
    (h : ∀ i < rows, ∀ j < cols, f i j = g i j) :
    buildEdges rows cols f = buildEdges rows cols g := by
  rw [buildEdges_eq_cells, buildEdges_eq_cells]
  apply flatMap_congr_left
  rintro ⟨i, j⟩ hij
  rw [mem_cellList] at hij
  exact cellEdges_congr h hij.1 hij.2

/-- C8: A supplied size cap `(mr, mc)` makes build operate on the
top-left `min(R, mr) × min(C, mc)` sub-rectangle: the capped build equals
the uncapped build of that sub-grid, is independent of the values in the
discarded cells, and has `min(R,mr)*min(C,mc)` nodes and the grid edge
count of the sub-rectangle (for a 5×5 array with cap `(2,2)`: 4 nodes
and 4 edges). -/
theorem C8_size_cap (R C mr mc : Nat) (f g : Nat → Nat → Int)
    (hfg : ∀ i < min R mr, ∀ j < min C mc, f i j = g i j) :
    create_elevation_graph R C f (some (mr, mc)) =
      create_elevation_graph (min R mr) (min C mc) f none ∧
    create_elevation_graph R C f (some (mr, mc)) =
      create_elevation_graph R C g (some (mr, mc)) ∧
    (create_elevation_graph R C f (some (mr, mc))).nodes.length =
      min R mr * min C mc ∧
    (create_elevation_graph R C f (some (mr, mc))).edges.length =
      min R mr * (min C mc - 1) + (min R mr - 1) * min C mc := by
  refine ⟨rfl, ?_, ?_, ?_⟩
  · show (⟨buildNodes (min R mr) (min C mc) f,
        buildEdges (min R mr) (min C mc) f⟩ : Graph) =
      ⟨buildNodes (min R mr) (min C mc) g,
        buildEdges (min R mr) (min C mc) g⟩
    rw [buildNodes_congr hfg, buildEdges_congr hfg]
  · exact buildNodes_length _ _ _
  · exact buildEdges_length _ _ _

/-- Witness for C8: a 5×5 array capped to (2,2), against a second array
agreeing only on the top-left 2×2 block, yields identical graphs with 4
nodes and 4 edges. -/
theorem C8_size_cap_witness :
    create_elevation_graph 5 5 (fun i j => (i : Int) * 10 + j)
        (some (2, 2)) =
      create_elevation_graph 5 5
        (fun i j => if i < 2 ∧ j < 2 then (i : Int) * 10 + j else 999)
        (some (2, 2)) ∧
    (create_elevation_graph 5 5 (fun i j => (i : Int) * 10 + j)
        (some (2, 2))).nodes.length = min 5 2 * min 5 2 ∧
    (create_elevation_graph 5 5 (fun i j => (i : Int) * 10 + j)
        (some (2, 2))).edges.length =
      min 5 2 * (min 5 2 - 1) + (min 5 2 - 1) * min 5 2 := by
  have h := C8_size_cap 5 5 2 2 (fun i j => (i : Int) * 10 + j)
    (fun i j => if i < 2 ∧ j < 2 then (i : Int) * 10 + j else 999)
    (by intro i hi j hj; dsimp only; rw [if_pos (show i < 2 ∧ j < 2 by omega)])
  exact ⟨h.2.1, h.2.2.1, h.2.2.2⟩

/-! ### C9: the graph is simple, undirected, 4-adjacent -/

lemma cellEdges_shape {rows cols i j : Nat} {f : Nat → Nat → Int}
    (hj : j < cols) :
    ∀ e ∈ cellEdges rows cols f i j, e.u = i * cols + j ∧ e.u < e.v := by
  intro e he
  have hcols : 0 < cols := by omega
  rcases mem_cellEdges he with ⟨hc, rfl⟩ | ⟨hc, rfl⟩
  · exact ⟨rfl, Nat.add_lt_add_right
      (mul_lt_mul_of_pos_right (Nat.lt_succ_self _) hcols) _⟩
  · exact ⟨rfl, Nat.add_lt_add_left (Nat.lt_succ_self _) _⟩

lemma cellEdges_pairwise (rows cols : Nat) (f : Nat → Nat → Int)
    (i j : Nat) :
    (cellEdges rows cols f i j).Pairwise (fun e₁ e₂ => ¬ sameEnds e₁ e₂) := by
  rw [cellEdges]
  by_cases h1 : i + 1 < rows <;> by_cases h2 : j + 1 < cols
  · rw [if_pos h1, if_pos h2, List.singleton_append]
    refine List.pairwise_cons.mpr ⟨?_, List.pairwise_singleton _ _⟩
    intro e he
    rw [List.mem_singleton] at he
    subst he
    intro hs
    have hsm : (i + 1) * cols = i * cols + cols := Nat.succ_mul i cols
    simp only [sameEnds] at hs
    rcases hs with ⟨ha, hb⟩ | ⟨ha, hb⟩ <;> omega
  · rw [if_pos h1, if_neg h2, List.append_nil]
    exact List.pairwise_singleton _ _
  · rw [if_neg h1, if_pos h2, List.nil_append]
    exact List.pairwise_singleton _ _
  · rw [if_neg h1, if_neg h2]
    exact List.Pairwise.nil

lemma edgesUpTo_pairwise {rows cols : Nat} {f : Nat → Nat → Int} :
    ∀ k, k ≤ rows * cols →
      (edgesUpTo rows cols f k).Pairwise (fun e₁ e₂ => ¬ sameEnds e₁ e₂) := by
  intro k
  induction k with
  | zero => intro _; exact List.Pairwise.nil
  | succ n ih =>
    intro hn
    rw [edgesUpTo_succ, List.pairwise_append]
    have hcols : 0 < cols := by
      rcases Nat.eq_zero_or_pos cols with h | h
      · subst h; rw [Nat.mul_zero] at hn; omega
      · exact h
    refine ⟨ih (by omega), cellEdges_pairwise _ _ _ _ _, ?_⟩
    intro e₁ h1 e₂ h2
    have hs1 := edgesUpTo_shape (by omega) e₁ h1
    have hs2 := cellEdges_shape (Nat.mod_lt n hcols) e₂ h2
    have he2u : e₂.u = n := by rw [hs2.1, decode_encode]
    intro hs
    unfold sameEnds at hs
    rcases hs with ⟨ha, hb⟩ | ⟨ha, hb⟩ <;> omega

/-- C9: Every built graph is simple and undirected — no self-loops,
at most one edge per unordered pair of nodes — and every edge joins two
distinct in-bounds nodes whose grid cells are 4-adjacent: the stored
`(row, col)` attributes differ by exactly 1 in exactly one coordinate
(no diagonals; coordinates are plain in-bounds values, so no wrap-around
between opposite boundaries). -/
theorem C9_simple_4adjacent (R C : Nat) (f : Nat → Nat → Int) :
    (∀ e ∈ (create_elevation_graph R C f none).edges,
      e.u ≠ e.v ∧
      ∃ au av : NodeAttrs,
        node_attrs (create_elevation_graph R C f none) e.u = some au ∧
        node_attrs (create_elevation_graph R C f none) e.v = some av ∧
        au.row < R ∧ au.col < C ∧ av.row < R ∧ av.col < C ∧
        ((av.row = au.row + 1 ∧ av.col = au.col) ∨
         (av.row = au.row ∧ av.col = au.col + 1))) ∧
    (create_elevation_graph R C f none).edges.Pairwise
      (fun e₁ e₂ => ¬ sameEnds e₁ e₂) := by
  constructor
  · intro e he
    rw [create_none_eq] at he ⊢
    replace he : e ∈ buildEdges R C f := he
    rw [mem_buildEdges_iff] at he
    obtain ⟨i, hi, j, hj, he⟩ := he
    have hshape := cellEdges_shape hj e he
    refine ⟨by omega, ?_⟩
    rcases mem_cellEdges he with ⟨hc, rfl⟩ | ⟨hc, rfl⟩
    · refine ⟨_, _, node_attrs_build (encode_lt hi hj),
        node_attrs_build (encode_lt hc hj), ?_⟩
      rw [encode_div _ _ _ hj, encode_mod _ _ _ hj,
        encode_div _ _ _ hj, encode_mod _ _ _ hj]
      exact ⟨hi, hj, hc, hj, Or.inl ⟨rfl, rfl⟩⟩
    · refine ⟨_, _, node_attrs_build (encode_lt hi hj),
        node_attrs_build (encode_lt hi hc), ?_⟩
      rw [encode_div _ _ _ hj, encode_mod _ _ _ hj,
        encode_div _ _ _ hc, encode_mod _ _ _ hc]
      exact ⟨hi, hj, hi, hc, Or.inr ⟨rfl, rfl⟩⟩
  · rw [create_none_eq]
    show (buildEdges R C f).Pairwise _
    rw [buildEdges_eq]
    exact edgesUpTo_pairwise _ (Nat.le_refl _)

/-- Witness for C9 on a 2×2 grid: its first edge joins node 0 to node 2,
one row below. -/
theorem C9_simple_4adjacent_witness :
    (0 : Nat) ≠ (2 : Nat) ∧
    ∃ au av : NodeAttrs,
      node_attrs (create_elevation_graph 2 2 (fun i j => (i : Int) * 10 + j)
        none) 0 = some au ∧
      node_attrs (create_elevation_graph 2 2 (fun i j => (i : Int) * 10 + j)
        none) 2 = some av ∧
      au.row < 2 ∧ au.col < 2 ∧ av.row < 2 ∧ av.col < 2 ∧
      ((av.row = au.row + 1 ∧ av.col = au.col) ∨
       (av.row = au.row ∧ av.col = au.col + 1)) := by
  have h := (C9_simple_4adjacent 2 2 (fun i j => (i : Int) * 10 + j)).1
    ⟨0, 2, 10, 1⟩ (by decide)
  exact h

/-! ### C5: elevation range -/

lemma foldl_min_le_init (l : List Int) (a : Int) : l.foldl min a ≤ a := by
  induction l generalizing a with
  | nil => exact le_refl a
  | cons x xs ih => exact le_trans (ih (min a x)) (min_le_left a x)

lemma foldl_min_le_mem (l : List Int) (a : Int) :
    ∀ x ∈ l, l.foldl min a ≤ x := by
  induction l generalizing a with
  | nil => intro x hx; exact absurd hx (List.not_mem_nil x)
  | cons y ys ih =>
    intro x hx
    rw [List.mem_cons] at hx
    rw [List.foldl_cons]
    rcases hx with rfl | hx
    · exact le_trans (foldl_min_le_init ys (min a x)) (min_le_right a x)
    · exact ih (min a y) x hx

lemma foldl_min_mem (l : List Int) (a : Int) :
    l.foldl min a = a ∨ l.foldl min a ∈ l := by
  induction l generalizing a with
  | nil => exact Or.inl rfl
  | cons y ys ih =>
    rw [List.foldl_cons]
    rcases ih (min a y) with h | h
    · rcases min_choice a y with hm | hm
      · exact Or.inl (h.trans hm)
      · rw [h, hm]
        exact Or.inr (List.mem_cons_self y ys)
    · exact Or.inr (List.mem_cons_of_mem y h)

lemma foldl_max_init_le (l : List Int) (a : Int) : a ≤ l.foldl max a := by
  induction l generalizing a with
  | nil => exact le_refl a
  | cons x xs ih => exact le_trans (le_max_left a x) (ih (max a x))

lemma foldl_max_mem_le (l : List Int) (a : Int) :
    ∀ x ∈ l, x ≤ l.foldl max a := by
  induction l generalizing a with
  | nil => intro x hx; exact absurd hx (List.not_mem_nil x)
  | cons y ys ih =>
    intro x hx
    rw [List.mem_cons] at hx
    rw [List.foldl_cons]
    rcases hx with rfl | hx
    · exact le_trans (le_max_right a x) (foldl_max_init_le ys (max a x))
    · exact ih (max a y) x hx

lemma foldl_max_mem (l : List Int) (a : Int) :
    l.foldl max a = a ∨ l.foldl max a ∈ l := by
  induction l generalizing a with
  | nil => exact Or.inl rfl
  | cons y ys ih =>
    rw [List.foldl_cons]
    rcases ih (max a y) with h | h
    · rcases max_choice a y with hm | hm
      · exact Or.inl (h.trans hm)
      · rw [h, hm]
        exact Or.inr (List.mem_cons_self y ys)
    · exact Or.inr (List.mem_cons_of_mem y h)

/-- C5: The elevation-range analysis inside `analyze_graph` fails on
a graph with zero nodes (Python's `min`/`max` raise there, the spec's
`EmptyGraph` condition), and on any graph with at least one node it
returns the minimum and the maximum over all node elevations. -/
theorem C5_elevation_range (G : Graph) :
    (G.nodes = [] → elevation_range G = none) ∧
    (G.nodes ≠ [] →
      ∃ lo hi : Int, elevation_range G = some (lo, hi) ∧
        lo ∈ G.nodes.map (fun p => p.2.elevation) ∧
        hi ∈ G.nodes.map (fun p => p.2.elevation) ∧
        ∀ x ∈ G.nodes.map (fun p => p.2.elevation), lo ≤ x ∧ x ≤ hi) := by
  constructor
  · intro h
    rw [elevation_range, h]
    rfl
  · intro h
    obtain ⟨p, rest, hn⟩ := List.exists_cons_of_ne_nil h
    rw [elevation_range, hn, List.map_cons]
    refine ⟨_, _, rfl, ?_, ?_, ?_⟩
    · rcases foldl_min_mem (rest.map (fun p => p.2.elevation))
          p.2.elevation with h1 | h1
      · rw [h1]
        exact List.mem_cons_self _ _
      · exact List.mem_cons_of_mem _ h1
    · rcases foldl_max_mem (rest.map (fun p => p.2.elevation))
          p.2.elevation with h1 | h1
      · rw [h1]
        exact List.mem_cons_self _ _
      · exact List.mem_cons_of_mem _ h1
    · intro x hx
      rw [List.mem_cons] at hx
      rcases hx with rfl | hx
      · exact ⟨foldl_min_le_init _ _, foldl_max_init_le _ _⟩
      · exact ⟨foldl_min_le_mem _ _ x hx, foldl_max_mem_le _ _ x hx⟩

/-- Witness for C5 on a concrete 2-node graph with elevations 5 and 3. -/
theorem C5_elevation_range_witness :
    ∃ lo hi : Int,
      elevation_range ⟨[(0, ⟨0, 0, 5, (0, 0)⟩), (1, ⟨0, 1, 3, (0, 0)⟩)],
        []⟩ = some (lo, hi) ∧
      lo ∈ [(5 : Int), 3] ∧ hi ∈ [(5 : Int), 3] ∧
      ∀ x ∈ [(5 : Int), 3], lo ≤ x ∧ x ≤ hi := by
  have h := (C5_elevation_range
    ⟨[(0, ⟨0, 0, 5, (0, 0)⟩), (1, ⟨0, 1, 3, (0, 0)⟩)], []⟩).2 (by decide)
  exact h

/-! ### C6 and C10: the sampler -/

lemma filter_map_eq {α β : Type} (g : α → β) (p : β → Bool) (l : List α) :
    (l.map g).filter p = (l.filter (fun a => p (g a))).map g := by
  induction l with
  | nil => rfl
  | cons x xs ih =>
    rw [List.map_cons, List.filter_cons, List.filter_cons]
    by_cases h : p (g x)
    · rw [if_pos h, if_pos h, List.map_cons, ih]
    · rw [if_neg h, if_neg h, ih]

lemma range_filter_contains (N m : Nat) (hm : m ≤ N) :
    (List.range N).filter (fun a => (List.range m).contains a) =
      List.range m := by
  have hN : N = m + (N - m) := by omega
  rw [hN, List.range_add, List.filter_append]
  have h1 : (List.range m).filter (fun a => (List.range m).contains a) =
      List.range m := by
    apply List.filter_eq_self.mpr
    intro a ha
    exact List.elem_iff.mpr ha
  have h2 : ((List.range (N - m)).map (fun x => m + x)).filter
      (fun a => (List.range m).contains a) = [] := by
    apply List.filter_eq_nil_iff.mpr
    intro a ha
    rw [List.mem_map] at ha
    obtain ⟨x, hx, rfl⟩ := ha
    intro hc
    have hmem := List.elem_iff.mp hc
    rw [List.mem_range] at hmem
    omega
  rw [h1, h2, List.append_nil]

lemma sample_build_nodes (rows cols n : Nat) (f : Nat → Nat → Int) :
    (save_graph_sample ⟨buildNodes rows cols f, buildEdges rows cols f⟩
        n).nodes =
      (List.range (min n (rows * cols))).map (fun a =>
        (a, ⟨a / cols, a % cols, f (a / cols) (a % cols),
          ((↑(a % cols) : Int), -(↑(a / cols) : Int))⟩)) := by
  show ((buildNodes rows cols f).filter (fun p =>
      (((buildNodes rows cols f).map Prod.fst).take n).contains p.1)) = _
  rw [buildNodes_map_fst, List.take_range, buildNodes_eq, filter_map_eq]
  dsimp only
  rw [range_filter_contains _ _ (Nat.min_le_right n (rows * cols))]

lemma sample_build_edges (rows cols n : Nat) (f : Nat → Nat → Int) :
    (save_graph_sample ⟨buildNodes rows cols f, buildEdges rows cols f⟩
        n).edges =
      (buildEdges rows cols f).filter (fun e =>
        (List.range (min n (rows * cols))).contains e.u &&
        (List.range (min n (rows * cols))).contains e.v) := by
  show ((buildEdges rows cols f).filter (fun e =>
      (((buildNodes rows cols f).map Prod.fst).take n).contains e.u &&
      (((buildNodes rows cols f).map Prod.fst).take n).contains e.v)) = _
  rw [buildNodes_map_fst, List.take_range]

/-- C6: For every built graph and every sample size `n`,
`save_graph_sample` selects the first `n` nodes in ascending NodeId order
(deterministically, clamping `n` to the node count), the sampled graph
has `node_count = min(n, node_count)`, and its edges are exactly the
source edges whose both endpoints are among the selected nodes — nothing
is synthesized. -/
theorem C6_sample_first_nodes (R C n : Nat) (f : Nat → Nat → Int)
    (cap : Option (Nat × Nat)) :
    (save_graph_sample (create_elevation_graph R C f cap) n).nodes.map
        Prod.fst =
      List.range (min n (create_elevation_graph R C f cap).nodes.length) ∧
    (save_graph_sample (create_elevation_graph R C f cap) n).nodes.length =
      min n (create_elevation_graph R C f cap).nodes.length ∧
    ∀ e, e ∈ (save_graph_sample (create_elevation_graph R C f cap) n).edges ↔
      e ∈ (create_elevation_graph R C f cap).edges ∧
      e.u ∈ (save_graph_sample (create_elevation_graph R C f cap) n).nodes.map
        Prod.fst ∧
      e.v ∈ (save_graph_sample (create_elevation_graph R C f cap) n).nodes.map
        Prod.fst := by
  rw [create_eq_eff]
  have hlen : (⟨buildNodes (effRows R cap) (effCols C cap) f,
      buildEdges (effRows R cap) (effCols C cap) f⟩ : Graph).nodes.length =
      effRows R cap * effCols C cap := buildNodes_length _ _ _
  rw [hlen]
  have hids : (save_graph_sample
      ⟨buildNodes (effRows R cap) (effCols C cap) f,
        buildEdges (effRows R cap) (effCols C cap) f⟩ n).nodes.map Prod.fst =
      List.range (min n (effRows R cap * effCols C cap)) := by
    rw [sample_build_nodes, List.map_map]
    exact List.map_id _ ▸ rfl
  refine ⟨hids, ?_, ?_⟩
  · rw [sample_build_nodes, List.length_map, List.length_range]
  · intro e
    rw [sample_build_edges, hids, List.mem_filter, Bool.and_eq_true]
    constructor
    · rintro ⟨h1, h2, h3⟩
      exact ⟨h1, List.elem_iff.mp h2, List.elem_iff.mp h3⟩
    · rintro ⟨h1, h2, h3⟩
      exact ⟨h1, List.elem_iff.mpr h2, List.elem_iff.mpr h3⟩

/-- Witness for C6: sampling 2 nodes from a 2×2 grid keeps ids `[0, 1]`
and exactly the one edge (0–1) inside the sample. -/
theorem C6_sample_first_nodes_witness :
    (save_graph_sample (create_elevation_graph 2 2
        (fun i j => (i : Int) * 10 + j) none) 2).nodes.map Prod.fst =
      List.range (min 2 (create_elevation_graph 2 2
        (fun i j => (i : Int) * 10 + j) none).nodes.length) ∧
    ((⟨0, 1, 1, 1⟩ : EdgeData) ∈ (save_graph_sample (create_elevation_graph
        2 2 (fun i j => (i : Int) * 10 + j) none) 2).edges ↔
      (⟨0, 1, 1, 1⟩ : EdgeData) ∈ (create_elevation_graph 2 2
        (fun i j => (i : Int) * 10 + j) none).edges ∧
      (0 : Nat) ∈ (save_graph_sample (create_elevation_graph 2 2
        (fun i j => (i : Int) * 10 + j) none) 2).nodes.map Prod.fst ∧
      (1 : Nat) ∈ (save_graph_sample (create_elevation_graph 2 2
        (fun i j => (i : Int) * 10 + j) none) 2).nodes.map Prod.fst) := by
  have h := C6_sample_first_nodes 2 2 2 (fun i j => (i : Int) * 10 + j) none
  exact ⟨h.1, h.2.2 ⟨0, 1, 1, 1⟩⟩

/-- C10: Sampling changes no attribute: every node of the sampled
subgraph (its id together with its `row`, `col`, `elevation`, `pos`
attribute record) appears identically in the source graph, and every
sampled edge (endpoints, `weight`, `distance`) is an edge of the source
graph. -/
theorem C10_sample_preserves_attrs (G : Graph) (n : Nat) :
    (∀ p ∈ (save_graph_sample G n).nodes, p ∈ G.nodes) ∧
    (∀ e ∈ (save_graph_sample G n).edges, e ∈ G.edges) := by
  constructor
  · intro p hp
    replace hp : p ∈ G.nodes.filter _ := hp
    exact (List.mem_filter.mp hp).1
  · intro e he
    replace he : e ∈ G.edges.filter _ := he
    exact (List.mem_filter.mp he).1

/-- Witness for C10: node 0 and edge 0–1 of a sampled 1×2 grid graph
appear unchanged in the source graph. -/
theorem C10_sample_preserves_attrs_witness :
    (0, (⟨0, 0, (0 : Int), ((0 : Int), (0 : Int))⟩ : NodeAttrs)) ∈
      (create_elevation_graph 1 2 (fun _ _ => (0 : Int)) none).nodes ∧
    (⟨0, 1, 0, 1⟩ : EdgeData) ∈
      (create_elevation_graph 1 2 (fun _ _ => (0 : Int)) none).edges := by
  have h := C10_sample_preserves_attrs
    (create_elevation_graph 1 2 (fun _ _ => (0 : Int)) none) 2
  exact ⟨h.1 (0, ⟨0, 0, 0, (0, 0)⟩) (by decide),
    h.2 ⟨0, 1, 0, 1⟩ (by decide)⟩

/-! ### C7: connectivity of the full rectangular grid -/

lemma mem_expand_old {G : Graph} {S : List Nat} {x : Nat} (hx : x ∈ S) :
    x ∈ expand G S := by
  rw [expand, List.mem_append]
  exact Or.inl hx

lemma mem_expand_adj {G : Graph} {S : List Nat} {u v : Nat}
    (hv : v ∈ G.nodes.map Prod.fst) (hu : u ∈ S)
    (he : hasEdge G.edges u v = true) : v ∈ expand G S := by
  rw [expand, List.mem_append]
  by_cases hvS : v ∈ S
  · exact Or.inl hvS
  · right
    rw [List.mem_filter]
    refine ⟨hv, ?_⟩
    rw [Bool.and_eq_true]
    constructor
    · cases hsc : S.contains v with
      | false => rfl
      | true => exact absurd (List.elem_iff.mp hsc) hvS
    · rw [List.any_eq_true]
      exact ⟨u, hu, he⟩

lemma reachIter_step {G : Graph} {u v : Nat}
    (hv : v ∈ G.nodes.map Prod.fst) (he : hasEdge G.edges u v = true) :
    ∀ n (S : List Nat), u ∈ reachIter G S n → v ∈ reachIter G S (n + 1) := by
  intro n
  induction n with
  | zero => intro S hu; exact mem_expand_adj hv hu he
  | succ m ih => intro S hu; exact ih (expand G S) hu

lemma reachIter_mono {G : Graph} {x : Nat} :
    ∀ n (S : List Nat), x ∈ reachIter G S n → x ∈ reachIter G S (n + 1) := by
  intro n
  induction n with
  | zero => intro S hx; exact mem_expand_old hx
  | succ m ih => intro S hx; exact ih (expand G S) hx

lemma reachIter_le {G : Graph} {x : Nat} {S : List Nat} {m n : Nat}
    (hmn : m ≤ n) (hx : x ∈ reachIter G S m) : x ∈ reachIter G S n := by
  induction n with
  | zero =>
    have hm : m = 0 := by omega
    subst hm
    exact hx
  | succ k ih =>
    by_cases h : m = k + 1
    · subst h
      exact hx
    · exact reachIter_mono k S (ih (by omega))

lemma hasEdge_build_down {rows cols : Nat} {f : Nat → Nat → Int}
    {i j : Nat} (hi1 : i + 1 < rows) (hj : j < cols) :
    hasEdge (buildEdges rows cols f) (i * cols + j)
      ((i + 1) * cols + j) = true := by
  rw [hasEdge, List.any_eq_true]
  refine ⟨⟨i * cols + j, (i + 1) * cols + j, |f i j - f (i + 1) j|, 1⟩,
    ?_, ?_⟩
  · rw [mem_buildEdges_iff]
    refine ⟨i, by omega, j, hj, ?_⟩
    rw [cellEdges, List.mem_append]
    left
    rw [if_pos hi1, List.mem_singleton]
  · simp

lemma hasEdge_build_right {rows cols : Nat} {f : Nat → Nat → Int}
    {i j : Nat} (hi : i < rows) (hj1 : j + 1 < cols) :
    hasEdge (buildEdges rows cols f) (i * cols + j)
      (i * cols + (j + 1)) = true := by
  rw [hasEdge, List.any_eq_true]
  refine ⟨⟨i * cols + j, i * cols + (j + 1), |f i j - f i (j + 1)|, 1⟩,
    ?_, ?_⟩
  · rw [mem_buildEdges_iff]
    refine ⟨i, hi, j, by omega, ?_⟩
    rw [cellEdges, List.mem_append]
    right
    rw [if_pos hj1, List.mem_singleton]
  · simp

lemma grid_reach {rows cols : Nat} {f : Nat → Nat → Int} :
    ∀ s i j, i + j = s → i < rows → j < cols →
      (i * cols + j) ∈ reachIter
        ⟨buildNodes rows cols f, buildEdges rows cols f⟩ [0] s := by
  intro s
  induction s using Nat.strong_induction_on with
  | _ s ih =>
    intro i j hs hi hj
    have hvmem : (i * cols + j) ∈
        (⟨buildNodes rows cols f, buildEdges rows cols f⟩ :
          Graph).nodes.map Prod.fst := by
      show (i * cols + j) ∈ (buildNodes rows cols f).map Prod.fst
      rw [buildNodes_map_fst, List.mem_range]
      exact encode_lt hi hj
    rcases Nat.eq_zero_or_pos j with rfl | hj0
    · rcases Nat.eq_zero_or_pos i with rfl | hi0
      · have hs0 : s = 0 := by omega
        subst hs0
        show (0 * cols + 0) ∈ [0]
        simp
      · have hparent := ih (s - 1) (by omega) (i - 1) 0 (by omega)
          (by omega) hj
        have hedge : hasEdge (buildEdges rows cols f)
            ((i - 1) * cols + 0) (i * cols + 0) = true := by
          have h := hasEdge_build_down (f := f)
            (show (i - 1) + 1 < rows by omega) hj
          rw [show i - 1 + 1 = i from by omega] at h
          exact h
        have hstep := reachIter_step hvmem hedge (s - 1) [0] hparent
        rw [show s - 1 + 1 = s from by omega] at hstep
        exact hstep
    · have hparent := ih (s - 1) (by omega) i (j - 1) (by omega) hi
        (by omega)
      have hedge : hasEdge (buildEdges rows cols f)
          (i * cols + (j - 1)) (i * cols + j) = true := by
        have h := hasEdge_build_right (f := f) hi
          (show (j - 1) + 1 < cols by omega)
        rw [show j - 1 + 1 = j from by omega] at h
        exact h
      have hstep := reachIter_step hvmem hedge (s - 1) [0] hparent
      rw [show s - 1 + 1 = s from by omega] at hstep
      exact hstep

lemma is_connected_eq {G : Graph} {p1 : Nat} {p2 : NodeAttrs}
    {rest : List (Nat × NodeAttrs)} (hn : G.nodes = (p1, p2) :: rest) :
    is_connected G = G.nodes.all
      (fun q => (reachIter G [p1] G.nodes.length).contains q.1) := by
  unfold is_connected
  rw [hn]

/-- C7: For every full rectangular grid with `R ≥ 1` rows and `C ≥ 1`
columns and no cells excluded, the graph built by
`create_elevation_graph` is connected: the connectivity check returns
true (one component reaches all `R*C` nodes). -/
theorem C7_grid_connected (R C : Nat) (f : Nat → Nat → Int)
    (hR : 1 ≤ R) (hC : 1 ≤ C) :
    is_connected (create_elevation_graph R C f none) = true := by
  rw [create_none_eq]
  have hmap : (⟨buildNodes R C f, buildEdges R C f⟩ :
      Graph).nodes.map Prod.fst = List.range (R * C) :=
    buildNodes_map_fst R C f
  have hlen : (⟨buildNodes R C f, buildEdges R C f⟩ :
      Graph).nodes.length = R * C := buildNodes_length R C f
  have hRC : 1 ≤ R * C := Nat.one_le_iff_ne_zero.mpr (by
    intro h0
    rcases Nat.mul_eq_zero.mp h0 with h | h <;> omega)
  cases hn : (⟨buildNodes R C f, buildEdges R C f⟩ : Graph).nodes with
  | nil =>
    rw [hn] at hlen
    simp at hlen
    omega
  | cons p rest =>
    obtain ⟨p1, p2⟩ := p
    have hp0 : p1 = 0 := by
      have hm := hmap
      rw [hn, List.map_cons] at hm
      rw [show R * C = (R * C - 1) + 1 from by omega,
        List.range_succ_eq_map] at hm
      exact (List.cons_eq_cons.mp hm).1
    subst hp0
    rw [is_connected_eq hn, List.all_eq_true]
    intro q hq
    have hqid : q.1 ∈ List.range (R * C) := by
      rw [← hmap]
      exact List.mem_map_of_mem Prod.fst hq
    rw [List.mem_range] at hqid
    have hCpos : 0 < C := hC
    have hi : q.1 / C < R := by
      rw [Nat.div_lt_iff_lt_mul hCpos]
      omega
    have hj : q.1 % C < C := Nat.mod_lt _ hCpos
    have hreach := grid_reach (f := f) (q.1 / C + q.1 % C)
      (q.1 / C) (q.1 % C) rfl hi hj
    rw [decode_encode] at hreach
    have hle : q.1 / C + q.1 % C ≤ R * C := by
      have h1 : q.1 / C ≤ q.1 / C * C :=
        Nat.le_mul_of_pos_right _ hCpos
      have h2 : q.1 / C * C + q.1 % C = q.1 := decode_encode q.1 C
      omega
    rw [hlen]
    exact List.elem_iff.mpr (reachIter_le hle hreach)

/-- Witness for C7: the 2×3 grid graph is connected. -/
theorem C7_grid_connected_witness :
    is_connected (create_elevation_graph 2 3
      (fun i j => (i : Int) * 10 + j) none) = true :=
  C7_grid_connected 2 3 (fun i j => (i : Int) * 10 + j)
    (by decide) (by decide)

example :
    (create_elevation_graph 2 2 (fun i j => (i : Int) + j) none).edges =
    [⟨0, 2, 1, 1⟩, ⟨0, 1, 1, 1⟩, ⟨1, 3, 1, 1⟩, ⟨2, 3, 1, 1⟩] := by
  decide

example :
    (create_elevation_graph 2 2 (fun i j => (i : Int) + j) none).nodes.map
      Prod.fst = [0, 1, 2, 3] := by
  decide

example : is_connected (create_elevation_graph 2 3 (fun _ _ => 0) none) = true := by
  decide
